import Mathlib

/-!
Verification of the Social Event Ingestion & Response Dispatch subsystem of
the terroir repository.  The Python sources are shallowly embedded below:

* `src/agents/base/farcaster_handler.py` — `FarcasterHandler`:
  `format_response`, `check_rate_limit`, `_clean_old_requests`,
  `track_thread_context`, `handle_webhook_event`, `verify_webhook_signature`,
  `process_webhook`, `process_cast_command`, `get_conversation_context`,
  `update_conversation_history`.
* `src/api/main.py` — the `/api/farcaster/webhook` endpoint
  (`farcaster_webhook`, `verify_signature`) and the scheduled-cast drain in
  `interactive_loop`.

Timestamps are modelled as natural-number seconds; Python strings as
`List Char`; Python dicts keyed by strings as association lists in insertion
order (matching CPython dict iteration order).  Fallible Python code is
modelled with `Option` or with explicit outcome constructors.
-/

namespace Terroir

/-! ## Association lists (Python dicts keyed by strings, insertion order) -/

/-- Dict read with a default of the empty list: models both
`collections.defaultdict(list)` lookups and `d.get(k, [])`. -/
def getA {α : Type} : List (String × List α) → String → List α
  | [], _ => []
  | (k', v) :: rest, k => if k' = k then v else getA rest k

/-- Dict write `d[k] = v`: overwrite in place if the key exists, else insert
at the end (CPython preserves insertion order). -/
def setA {α : Type} : List (String × List α) → String → List α → List (String × List α)
  | [], k, v => [(k, v)]
  | (k', v') :: rest, k, v =>
    if k' = k then (k', v) :: rest else (k', v') :: setA rest k v

theorem getA_setA_same {α : Type} (d : List (String × List α)) (k : String) (v : List α) :
    getA (setA d k v) k = v := by
  induction d with
  | nil => simp [getA, setA]
  | cons kv rest ih =>
    obtain ⟨k', v'⟩ := kv
    by_cases h : k' = k <;> simp [getA, setA, h, ih]

theorem getA_setA_ne {α : Type} (d : List (String × List α)) (k k₂ : String) (v : List α)
    (h : k ≠ k₂) : getA (setA d k v) k₂ = getA d k₂ := by
  induction d with
  | nil => simp [getA, setA, h]
  | cons kv rest ih =>
    obtain ⟨k', v'⟩ := kv
    by_cases hk : k' = k
    · subst hk
      simp [getA, setA, h]
    · simp [getA, setA, hk, ih]

/-! ## RateLimiter — `FarcasterHandler.check_rate_limit` / `_clean_old_requests`

`self.request_history` is a `defaultdict(list)` mapping a key (a user fid, or
the literal string `"global"`) to the list of request timestamps. -/

/-- `self.rate_limits` as set in `FarcasterHandler.__init__`. -/
structure RateLimits where
  per_user_max : Nat
  per_user_window : Nat
  global_max : Nat
  global_window : Nat

/-- Defaults from `__init__`: per-user 5 requests / 300 s, global
50 requests / 3600 s. -/
def defaultRateLimits : RateLimits := ⟨5, 300, 50, 3600⟩

/-- The window chosen in `_clean_old_requests`:
`'per_user' if key != 'global' else 'global'`. -/
def windowFor (rl : RateLimits) (key : String) : Nat :=
  if key = "global" then rl.global_window else rl.per_user_window

/-- `_clean_old_requests(now)`: for every tracked key, keep only the
timestamps `t` with `t > now - window` (over the integers; with natural-number
timestamps this is `now < t + window`). -/
def clean_old_requests (rl : RateLimits) (hist : List (String × List Nat)) (now : Nat) :
    List (String × List Nat) :=
  hist.map (fun kv => (kv.1, kv.2.filter (fun t => now < t + windowFor rl kv.1)))

/-- `check_rate_limit(user_fid)`: purge old entries, then deny if the global
window is at or above its cap, then deny if a user fid was given and that
user's window is at or above its cap, else admit.  Returns the updated
history (the purge is the only mutation) together with the boolean. -/
def check_rate_limit (rl : RateLimits) (hist : List (String × List Nat)) (now : Nat)
    (user_fid : Option String) : List (String × List Nat) × Bool :=
  let hist' := clean_old_requests rl hist now
  if (getA hist' "global").length ≥ rl.global_max then (hist', false)
  else
    match user_fid with
    | some fid =>
      if (getA hist' fid).length ≥ rl.per_user_max then (hist', false) else (hist', true)
    | none => (hist', true)

/-- Dict append `d[k].append(t)` on a `defaultdict(list)`. -/
def appendA : List (String × List Nat) → String → Nat → List (String × List Nat)
  | [], k, t => [(k, [t])]
  | (k', v) :: rest, k, t =>
    if k' = k then (k', v ++ [t]) :: rest else (k', v) :: appendA rest k t

/-- Modelled from the spec: the repository has no `record` counterpart to
`check_rate_limit` — nothing in `src/` ever appends to
`self.request_history`.  Per §4.2 of the spec, `record` "appends 'now' to the
global window and, if a sender id is present, to that sender's window". -/
def record (hist : List (String × List Nat)) (now : Nat) (user_fid : Option String) :
    List (String × List Nat) :=
  let h := appendA hist "global" now
  match user_fid with
  | some fid => appendA h fid now
  | none => h

/-! ## ResponseDispatcher — `FarcasterHandler.format_response` -/

/-- Python slice `s[:n]` where `n` may be negative: a negative bound counts
from the end of the string, clamping at 0. -/
def pyTakeInt {α : Type} (n : Int) (l : List α) : List α :=
  if n < 0 then l.take (l.length - (-n).toNat) else l.take n.toNat

/-- The attribution suffix built in `format_response`:
a blank line followed by `/s/ ` and the agent name. -/
def castSignature (agent_name : List Char) : List Char :=
  '\n' :: '\n' :: '/' :: 's' :: '/' :: ' ' :: agent_name

/-- `format_response(response, agent_name)`: with `max_length = 320` and
`content_limit = 320 - len(signature)`, truncate the content to
`content_limit - 3` characters and add an ellipsis when it exceeds
`content_limit`, then append the signature. -/
def format_response (response : List Char) (agent_name : List Char) : List Char :=
  let max_length : Int := 320
  let signature := castSignature agent_name
  let content_limit : Int := max_length - signature.length
  let response' :=
    if (response.length : Int) > content_limit then
      pyTakeInt (content_limit - 3) response ++ ['.', '.', '.']
    else response
  response' ++ signature

/-! ## ThreadContextStore — `track_thread_context`, `update_conversation_history`,
`get_conversation_context` -/

/-- One step of `track_thread_context` on a single thread's list: append the
message, then, if the length exceeds `max_size`, keep only the last
`max_size` entries (the Python slice `[-max_size:]`). -/
def trackStep {α : Type} (max_size : Nat) (l : List α) (m : α) : List α :=
  let l' := l ++ [m]
  if l'.length > max_size then l'.drop (l'.length - max_size) else l'

/-- One step of `update_conversation_history` on a single thread's list:
append the message, then, if the length exceeds `max_size`, `pop(0)` the
oldest entry. -/
def convStep {α : Type} (max_size : Nat) (l : List α) (m : α) : List α :=
  let l' := l ++ [m]
  if l'.length > max_size then l'.tail else l'

/-- `track_thread_context(thread_root, ...)`: initialise the thread's list if
absent, append the message dict, and bound the list by
`self.max_context_size` (default 5). -/
def track_thread_context {α : Type} (contexts : List (String × List α)) (max_size : Nat)
    (thread_root : String) (m : α) : List (String × List α) :=
  setA contexts thread_root (trackStep max_size (getA contexts thread_root) m)

/-- `update_conversation_history(thread_id, message)`: initialise if absent,
append, and bound by `self.max_history_size` (default 5) via `pop(0)`. -/
def update_conversation_history {α : Type} (history : List (String × List α)) (max_size : Nat)
    (thread_id : String) (m : α) : List (String × List α) :=
  setA history thread_id (convStep max_size (getA history thread_id) m)

/-- `get_conversation_context(thread_id)`: the last `max_size` messages of the
thread, `[]` for an unknown thread (`dict.get(thread_id, [])`). -/
def get_conversation_context {α : Type} (history : List (String × List α)) (max_size : Nat)
    (thread_id : String) : List α :=
  let l := getA history thread_id
  l.drop (l.length - max_size)

/-! ## ScheduledActionQueue — the scheduled-cast handling in
`interactive_loop` (`src/api/main.py`) -/

/-- An element of the `scheduled_casts` list:
a dict with keys `time` and `message`. -/
structure ScheduledCast where
  time : Nat
  message : List Char
deriving DecidableEq

/-- Scheduling a cast (`/cast+N`): `schedule_time = datetime.now() +
timedelta(hours=hours)` appended to `scheduled_casts`. -/
def scheduleCast (casts : List ScheduledCast) (now : Nat) (delay_seconds : Nat)
    (message : List Char) : List ScheduledCast :=
  casts ++ [⟨now + delay_seconds, message⟩]

/-- The per-iteration drain in `interactive_loop`: walk `scheduled_casts` in
order; execute each cast with `now >= cast.time`, collect the others into
`pending_casts`, and replace the queue by `pending_casts`.  Returns
(executed casts in order, remaining queue). -/
def drainDue : List ScheduledCast → Nat → List ScheduledCast × List ScheduledCast
  | [], _ => ([], [])
  | c :: rest, now =>
    let r := drainDue rest now
    if now ≥ c.time then (c :: r.1, r.2) else (r.1, c :: r.2)

/-! ## SignatureVerifier — `verify_webhook_signature`
(`farcaster_handler.py`) and `verify_signature` (`api/main.py`): the two
bodies are identical.

The HMAC-SHA512 hex digest computed by `hmac.new(secret.encode(), body,
hashlib.sha512).hexdigest()` is an external-library call; it is embedded as
an explicit function parameter `hmacHex : secret → body → digest`, since the
wrapper's control flow does not depend on the digest's internals. -/

/-- `verify_webhook_signature(body, signature, secret)`:
`if not signature: return False`; then `try` the digest computation — a
`None` secret makes `secret.encode('utf-8')` raise, which the bare `except`
turns into `False`; otherwise `hmac.compare_digest(computed, signature)`,
i.e. (timing aside) string equality.  `signature = none` models a missing
header and `some ""` an empty one; both are falsy in Python. -/
def verify_webhook_signature (hmacHex : String → List Nat → String) (body : List Nat)
    (signature : Option String) (secret : Option String) : Bool :=
  match signature with
  | none => false
  | some s =>
    if s = "" then false
    else
      match secret with
      | none => false
      | some sec => hmacHex sec body = s

/-! ## EventClassifier — webhook payloads, `handle_webhook_event`
(`farcaster_handler.py`), `process_webhook` (`farcaster_handler.py`) and the
`/api/farcaster/webhook` endpoint `farcaster_webhook` (`api/main.py`) -/

/-- One entry of `cast_data["mentioned_profiles"]`: only its `fid` key is
read, which may be absent (`profile.get("fid")` then yields `None`). -/
structure Profile where
  fid : Option Int
deriving DecidableEq

/-- The `parent_author` key of `cast_data`.  `cast_data.get("parent_author",
\x7b\x7d)` distinguishes three relevant shapes: key absent or an empty dict
(both falsy, and not `None`), JSON `null` (falsy, and `is None`), or a
non-empty dict whose `fid` key may still be `None`. -/
inductive ParentAuthorField
  | missing
  | null
  | author (fid : Option Int)
deriving DecidableEq

/-- The fields of `payload["data"]` that the handlers read. -/
structure CastData where
  author_fid : Option Int
  mentioned_profiles : List Profile
  parent_author : ParentAuthorField
  hash : Option String
  text : Option String
deriving DecidableEq

/-- The webhook envelope: `payload.get("type")` and `payload.get("data")`. -/
structure WebhookPayload where
  type_field : Option String
  data : Option CastData
deriving DecidableEq

/-- `cast_data = payload.get("data", \x7b\x7d)`: an absent `data` key reads as
an empty dict, whose every `get` yields the default. -/
def castDataOf (p : WebhookPayload) : CastData :=
  match p.data with
  | some c => c
  | none => ⟨none, [], .missing, none, none⟩

/-- `str(x)` for an optional integer: `str(None)` is `"None"`. -/
def pyStrOptInt : Option Int → String
  | none => "None"
  | some n => toString n

/-- The dict returned by `handle_webhook_event` when it decides to respond
(its `should_respond` key is always `True`). -/
structure EventResponse where
  parent_hash : Option String
  text : Option String
  is_mention : Bool
deriving DecidableEq

/-- `handle_webhook_event(payload)` from `farcaster_handler.py`.  `selfFid`
is `int(self.fid)` (`self.fid` is the decimal string from `FARCASTER_FID`,
default `"885400"`; the string itself is `toString selfFid`).

Returns `None` unless `payload["type"] == "cast.created"`.  Then: skip our
own cast (`author.get("fid") == int(self.fid)`); respond on a direct mention
(`any(profile.get("fid") == int(self.fid) ...)`); respond on a reply to our
cast (`parent_author` truthy and `str(parent_author.get("fid")) ==
self.fid`); in both cases `parent_hash = cast_data.get("hash")`.
`is_mention` is the Python `parent_author is None` flag. -/
def handle_webhook_event (selfFid : Int) (p : WebhookPayload) : Option EventResponse :=
  if p.type_field = some "cast.created" then
    let cast := castDataOf p
    if cast.author_fid = some selfFid then none
    else
      let mention_hit := cast.mentioned_profiles.any (fun pr => pr.fid = some selfFid)
      let reply_hit :=
        match cast.parent_author with
        | .author f => pyStrOptInt f = toString selfFid
        | _ => false
      if mention_hit || reply_hit then
        some ⟨cast.hash, cast.text, cast.parent_author = ParentAuthorField.null⟩
      else none
  else none

/-- The dict returned by `process_webhook`: either the error response
`status error, message Invalid signature`, or the success response
`status success` — in the latter case `dispatched` records the
`process_farcaster_query(query=..., reply_to=...)` call made (if any)
before returning. -/
inductive ProcessWebhookResult
  | invalidSignature
  | success (dispatched : Option (Option String × Option String))
deriving DecidableEq

/-- `process_webhook(request, agent)` from `farcaster_handler.py`: verify the
`x-neynar-signature` header against the raw body and `self.webhook_secret`;
on failure return the error dict immediately (no classification, no
dispatch).  Otherwise classify via `handle_webhook_event` and, when it
responds, call `process_farcaster_query` (its exceptions are swallowed);
always return the success dict. -/
def process_webhook (hmacHex : String → List Nat → String) (body : List Nat)
    (signature : Option String) (secret : Option String) (selfFid : Int)
    (p : WebhookPayload) : ProcessWebhookResult :=
  if verify_webhook_signature hmacHex body signature secret = false then
    .invalidSignature
  else
    match handle_webhook_event selfFid p with
    | some ev => .success (some (ev.text, ev.parent_hash))
    | none => .success none

/-- The observable outcome of the `/api/farcaster/webhook` endpoint in
`api/main.py`: the 200 response `status success` (with the
`process_farcaster_query(query=text, reply_to=hash)` call, if any, that
preceded it), or an unhandled exception (500). -/
inductive WebhookOutcome
  | success (dispatched : Option (Option String × Option String))
  | raised
deriving DecidableEq

/-- `farcaster_webhook(request)` from `api/main.py`.  The endpoint computes
`verify_signature(body, signature, settings.NEYNAR_WEBHOOK_SECRET)` but
discards the returned boolean — the `let _` mirrors the bare call on line
136 — and proceeds unconditionally.  Classification is inlined with the
literal fid 885400 and has no self-author check; `parent_author.get("fid")`
raises `AttributeError` when `parent_author` is JSON `null` (no `try` covers
it).  Exceptions of `process_farcaster_query` are swallowed; the endpoint
then returns the success dict. -/
def farcaster_webhook (hmacHex : String → List Nat → String) (body : List Nat)
    (signature : Option String) (secret : Option String) (p : WebhookPayload) :
    WebhookOutcome :=
  let _ := verify_webhook_signature hmacHex body signature secret
  if p.type_field = some "cast.created" then
    let cast := castDataOf p
    let mention_hit := cast.mentioned_profiles.any (fun pr => pr.fid = some (885400 : Int))
    match cast.parent_author with
    | .null => .raised
    | pa =>
      let reply_hit :=
        match pa with
        | .author f => f = some (885400 : Int)
        | _ => false
      if mention_hit || reply_hit then .success (some (cast.text, cast.hash))
      else .success none
  else .success none

/-! ## CommandRouter — `process_cast_command` (`farcaster_handler.py`) -/

/-- `s.lower()`. -/
def pyLower (s : List Char) : List Char := s.map Char.toLower

/-- Python's substring operator `needle in hay`. -/
def isSub (needle hay : List Char) : Bool := decide (needle <:+: hay)

/-- `s.strip()`: drop leading and trailing whitespace. -/
def pyStrip (s : List Char) : List Char :=
  ((s.dropWhile Char.isWhitespace).reverse.dropWhile Char.isWhitespace).reverse

/-- `s.split(":", 1)`: `some (before, after)` split at the first colon, or
`none` when the string has no colon (Python then returns the 1-element list
`[s]`, and indexing `[1]` or unpacking into two variables fails). -/
def splitOnceColon : List Char → Option (List Char × List Char)
  | [] => none
  | c :: rest =>
    if c = ':' then some ([], rest)
    else (splitOnceColon rest).map (fun p => (c :: p.1, p.2))

/-- `s.split(pat)` for a non-empty separator `pat` (Python raises on an empty
separator; the `pat = []` guard returns `[s]` to stay total, and is never
exercised below). -/
def splitOn (pat : List Char) (s : List Char) : List (List Char) :=
  if h : pat = [] then [s]
  else
    match s with
    | [] => [[]]
    | c :: rest =>
      if pat.isPrefixOf (c :: rest) then
        [] :: splitOn pat ((c :: rest).drop pat.length)
      else
        match splitOn pat rest with
        | [] => [[c]]
        | a :: as => (c :: a) :: as
termination_by s.length
decreasing_by
  · simp only [List.length_drop, List.length_cons]
    have : 0 < pat.length := List.length_pos.mpr h
    omega
  · simp only [List.length_cons]
    omega

/-- `s.replace("cast+", "")`: remove every occurrence of `cast+`. -/
def removeCastPlus : List Char → List Char
  | 'c' :: 'a' :: 's' :: 't' :: '+' :: rest => removeCastPlus rest
  | c :: rest => c :: removeCastPlus rest
  | [] => []

/-- The numeric value of a digit string. -/
def digitsVal (ds : List Char) : Int :=
  ds.foldl (fun acc c => acc * 10 + ((c.toNat - '0'.toNat : Nat) : Int)) 0

/-- `int(s)` for a stripped decimal string: optional sign followed by at
least one digit, else `none` (Python raises `ValueError`). -/
def pyInt? (s : List Char) : Option Int :=
  let t := pyStrip s
  match t with
  | '-' :: ds => if ds ≠ [] ∧ ds.all Char.isDigit then some (-(digitsVal ds)) else none
  | '+' :: ds => if ds ≠ [] ∧ ds.all Char.isDigit then some (digitsVal ds) else none
  | ds => if ds ≠ [] ∧ ds.all Char.isDigit then some (digitsVal ds) else none

/-- The value returned by `process_cast_command`: a cast dict (`type: cast`)
with its `raw` flag, a scheduled-cast dict (`type: scheduled_cast`), the
error string `Error parsing scheduled cast: ...` from the `except` branch,
`None` (fall through, no cast command here), or an uncaught exception. -/
inductive CastCommandResult
  | castNow (message : List Char) (raw : Bool)
  | scheduledCast (hours : Int) (message : List Char)
  | errorParsing
  | noCommand
  | raised
deriving DecidableEq

/-- `process_cast_command(query)` from `farcaster_handler.py`, branch for
branch.  The substring guards are case-insensitive (`query.lower()`) but the
splits run on the original string; in the `cast:` branch
`query.split("cast:")[1]` can therefore raise `IndexError` when only a
differently-cased occurrence exists.  In the scheduled branch the whole
body sits in a `try`, so both a colonless unpack failure and a non-numeric
`int()` argument yield the error-string return. -/
def process_cast_command (query : List Char) : CastCommandResult :=
  let lq := pyLower query
  if isSub ('c' :: 'a' :: 's' :: 't' :: '+' :: 'r' :: 'a' :: 'w' :: ':' :: []) lq then
    match splitOnceColon query with
    | some p => .castNow (pyStrip p.2) true
    | none => .raised
  else if isSub ('c' :: 'a' :: 's' :: 't' :: ':' :: []) lq then
    match splitOn ('c' :: 'a' :: 's' :: 't' :: ':' :: []) query with
    | _ :: seg :: _ => .castNow (pyStrip seg) false
    | _ => .raised
  else if isSub ('c' :: 'a' :: 's' :: 't' :: '+' :: []) lq && isSub (':' :: []) lq then
    match splitOnceColon query with
    | some p =>
      match pyInt? (pyStrip (removeCastPlus p.1)) with
      | some n => .scheduledCast n (pyStrip p.2)
      | none => .errorParsing
    | none => .errorParsing
  else .noCommand

/-! ## Helper lemmas -/

theorem getA_clean (rl : RateLimits) (hist : List (String × List Nat)) (now : Nat)
    (k : String) :
    getA (clean_old_requests rl hist now) k
      = (getA hist k).filter (fun t => decide (now < t + windowFor rl k)) := by
  induction hist with
  | nil => rfl
  | cons kv rest ih =>
    obtain ⟨k', v⟩ := kv
    by_cases h : k' = k
    · subst h
      simp [clean_old_requests, getA]
    · simpa [clean_old_requests, getA, h] using ih

theorem check_rate_limit_fst (rl : RateLimits) (hist : List (String × List Nat)) (now : Nat)
    (user_fid : Option String) :
    (check_rate_limit rl hist now user_fid).1 = clean_old_requests rl hist now := by
  cases user_fid <;> unfold check_rate_limit <;> dsimp only <;> split_ifs <;> rfl

theorem check_rate_limit_true_iff (rl : RateLimits) (hist : List (String × List Nat))
    (now : Nat) (user_fid : Option String) :
    (check_rate_limit rl hist now user_fid).2 = true ↔
      (getA (clean_old_requests rl hist now) "global").length < rl.global_max
      ∧ ∀ fid, user_fid = some fid →
          (getA (clean_old_requests rl hist now) fid).length < rl.per_user_max := by
  cases user_fid with
  | none =>
    unfold check_rate_limit
    dsimp only
    split_ifs with h1
    · simp only [Bool.false_eq_true, false_iff, not_and]
      intro hlt
      omega
    · simp only [true_iff]
      exact ⟨by omega, fun fid h => by cases h⟩
  | some fid =>
    unfold check_rate_limit
    dsimp only
    split_ifs with h1 h2
    · simp only [Bool.false_eq_true, false_iff, not_and]
      intro hlt
      omega
    · simp only [Bool.false_eq_true, false_iff, not_and]
      intro _ hall
      have := hall fid rfl
      omega
    · simp only [true_iff]
      refine ⟨by omega, fun fid' h => ?_⟩
      cases h
      omega

/-! ## Claim theorems -/

/-- C6: the admission check `check_rate_limit` first purges, from every
tracked window, all timestamps older than that window's duration relative to
now; it then returns false if the global window holds at least its cap,
otherwise false if a sender id was given and that sender's window holds at
least its cap, otherwise true; it never appends a timestamp to any window
(every resulting window is a sublist of the original one). -/
theorem check_rate_limit_spec (rl : RateLimits) (hist : List (String × List Nat))
    (now : Nat) (user_fid : Option String) :
    (check_rate_limit rl hist now user_fid).1 = clean_old_requests rl hist now
    ∧ (∀ k, getA (clean_old_requests rl hist now) k
        = (getA hist k).filter (fun t => decide (now < t + windowFor rl k)))
    ∧ (∀ k, ((getA ((check_rate_limit rl hist now user_fid).1) k)).Sublist (getA hist k))
    ∧ ((check_rate_limit rl hist now user_fid).2 = true ↔
        (getA (clean_old_requests rl hist now) "global").length < rl.global_max
        ∧ ∀ fid, user_fid = some fid →
            (getA (clean_old_requests rl hist now) fid).length < rl.per_user_max) := by
  refine ⟨check_rate_limit_fst rl hist now user_fid, getA_clean rl hist now, ?_,
    check_rate_limit_true_iff rl hist now user_fid⟩
  intro k
  rw [check_rate_limit_fst, getA_clean]
  exact List.filter_sublist _

/-- C9: signature verification is total and boolean-valued; it returns true
exactly when the header is present, non-empty, the secret is present, and
the header equals the computed HMAC hex digest of the body under the secret.
In particular it returns true when the header equals the digest (the digest
being non-empty), and false — never an exception — on a missing or empty
header or a missing secret. -/
theorem verify_webhook_signature_iff (hmacHex : String → List Nat → String)
    (body : List Nat) (signature secret : Option String) :
    verify_webhook_signature hmacHex body signature secret = true ↔
      ∃ s sec, signature = some s ∧ s ≠ "" ∧ secret = some sec ∧ hmacHex sec body = s := by
  unfold verify_webhook_signature
  cases signature with
  | none => simp
  | some s =>
    by_cases hs : s = ""
    · simp [hs]
    · cases secret with
      | none => simp [hs]
      | some sec => simp [hs, eq_comm]

/-- C10: for every webhook payload whose type field is not `cast.created`
(or is absent), `handle_webhook_event` returns `None`: no classification
result, no reply target, no response action. -/
theorem handle_webhook_event_other_type (selfFid : Int) (p : WebhookPayload)
    (h : p.type_field ≠ some "cast.created") :
    handle_webhook_event selfFid p = none := by
  unfold handle_webhook_event
  rw [if_neg]
  simpa using h

/-- Witness for C10 at the concrete payload with type `reaction.created`. -/
theorem handle_webhook_event_other_type_witness :
    (WebhookPayload.mk (some "reaction.created") none).type_field ≠ some "cast.created"
    ∧ handle_webhook_event 885400 (WebhookPayload.mk (some "reaction.created") none) = none :=
  ⟨by decide, handle_webhook_event_other_type 885400 _ (by decide)⟩

theorem drainDue_fst_eq_filter (casts : List ScheduledCast) (now : Nat) :
    (drainDue casts now).1 = casts.filter (fun c => decide (c.time ≤ now)) := by
  induction casts with
  | nil => rfl
  | cons c rest ih =>
    by_cases h : now ≥ c.time
    · have hd : decide (c.time ≤ now) = true := by simpa using h
      simp [drainDue, List.filter_cons, h, hd, ih]
    · have hd : decide (c.time ≤ now) = false := by simpa using h
      simp [drainDue, List.filter_cons, h, hd, ih]

theorem drainDue_snd_eq_filter (casts : List ScheduledCast) (now : Nat) :
    (drainDue casts now).2 = casts.filter (fun c => decide (now < c.time)) := by
  induction casts with
  | nil => rfl
  | cons c rest ih =>
    by_cases h : now ≥ c.time
    · have hd : decide (now < c.time) = false := by simpa using Nat.not_lt.mpr h
      simp [drainDue, List.filter_cons, h, hd, ih]
    · have hd : decide (now < c.time) = true := by simpa using Nat.not_le.mp h
      simp [drainDue, List.filter_cons, h, hd, ih]

/-- C7: `drainDue` at time `now` returns exactly the stored scheduled casts
with due time at most `now`, in the order they were scheduled (a filter of
the queue, which is kept in scheduling order); it removes them, leaving
exactly the not-yet-due casts, so no drained cast is returned by a later
drain; and a cast scheduled for `t0 + 3600` is never returned by a drain at
`t0 + 1000`. -/
theorem drainDue_spec (casts : List ScheduledCast) (now : Nat) :
    (drainDue casts now).1 = casts.filter (fun c => decide (c.time ≤ now))
    ∧ (drainDue casts now).2 = casts.filter (fun c => decide (now < c.time))
    ∧ (∀ c ∈ (drainDue casts now).2, now < c.time)
    ∧ (∀ now₂ c, c ∈ (drainDue ((drainDue casts now).2) now₂).1 →
        c ∈ (drainDue casts now).2 ∧ now < c.time)
    ∧ (∀ t0 c, c.time = t0 + 3600 → c ∉ (drainDue casts (t0 + 1000)).1) := by
  have hmem2 : ∀ c ∈ (drainDue casts now).2, now < c.time := by
    intro c hc
    rw [drainDue_snd_eq_filter] at hc
    simpa using (List.mem_filter.mp hc).2
  refine ⟨drainDue_fst_eq_filter casts now, drainDue_snd_eq_filter casts now, hmem2,
    ?_, ?_⟩
  · intro now₂ c hc
    rw [drainDue_fst_eq_filter] at hc
    have hmem : c ∈ (drainDue casts now).2 := (List.mem_filter.mp hc).1
    exact ⟨hmem, hmem2 c hmem⟩
  · intro t0 c htime hc
    rw [drainDue_fst_eq_filter] at hc
    have := (List.mem_filter.mp hc).2
    simp only [decide_eq_true_eq] at this
    omega

/-- Witness for C7 at a concrete queue: casts due at 5, 100 and 7 drained at
time 10. -/
theorem drainDue_spec_witness :
    (drainDue [⟨5, ['a']⟩, ⟨100, ['b']⟩, ⟨7, ['c']⟩] 10).1
        = ([⟨5, ['a']⟩, ⟨100, ['b']⟩, ⟨7, ['c']⟩] :
            List ScheduledCast).filter (fun c => decide (c.time ≤ 10))
    ∧ (drainDue [⟨5, ['a']⟩, ⟨100, ['b']⟩, ⟨7, ['c']⟩] 10).2
        = ([⟨5, ['a']⟩, ⟨100, ['b']⟩, ⟨7, ['c']⟩] :
            List ScheduledCast).filter (fun c => decide (10 < c.time))
    ∧ (∀ c ∈ (drainDue [⟨5, ['a']⟩, ⟨100, ['b']⟩, ⟨7, ['c']⟩] 10).2, 10 < c.time)
    ∧ (∀ now₂ c,
        c ∈ (drainDue ((drainDue [⟨5, ['a']⟩, ⟨100, ['b']⟩, ⟨7, ['c']⟩] 10).2) now₂).1 →
          c ∈ (drainDue [⟨5, ['a']⟩, ⟨100, ['b']⟩, ⟨7, ['c']⟩] 10).2 ∧ 10 < c.time)
    ∧ (∀ t0 c, c.time = t0 + 3600 →
        c ∉ (drainDue [⟨5, ['a']⟩, ⟨100, ['b']⟩, ⟨7, ['c']⟩] (t0 + 1000)).1) :=
  drainDue_spec [⟨5, ['a']⟩, ⟨100, ['b']⟩, ⟨7, ['c']⟩] 10

/-- C5: with `max_length = 320` and the attribution suffix of length
`S = len(agent_name) + 6` (for any agent name short enough that the
truncation budget `320 - S - 3` is meaningful), `format_response` returns
the content with the suffix appended unmodified whenever
`len(content) + S ≤ 320`; for longer content it truncates the content to
`320 - S - 3` characters and inserts an ellipsis before the suffix, making
the result exactly 320 characters; in all cases the result never exceeds
320 characters. -/
theorem format_response_spec (response agent_name : List Char)
    (h : agent_name.length ≤ 311) :
    (response.length + (castSignature agent_name).length ≤ 320 →
       format_response response agent_name = response ++ castSignature agent_name)
    ∧ (320 < response.length + (castSignature agent_name).length →
       format_response response agent_name
         = response.take (320 - (castSignature agent_name).length - 3)
             ++ ['.', '.', '.'] ++ castSignature agent_name
       ∧ (format_response response agent_name).length = 320)
    ∧ (format_response response agent_name).length ≤ 320 := by
  have hS : (castSignature agent_name).length = agent_name.length + 6 := by
    simp [castSignature]
  have hkey : 320 < response.length + (castSignature agent_name).length →
      format_response response agent_name
        = response.take (320 - (castSignature agent_name).length - 3)
            ++ ['.', '.', '.'] ++ castSignature agent_name := by
    intro hc
    unfold format_response pyTakeInt
    dsimp only
    rw [if_pos (show (response.length : Int) >
          320 - ((castSignature agent_name).length : Int) by omega),
        if_neg (show ¬ ((320 : Int) - ((castSignature agent_name).length : Int) - 3 < 0) by
          omega)]
    have ht : ((320 : Int) - ((castSignature agent_name).length : Int) - 3).toNat
        = 320 - (castSignature agent_name).length - 3 := by omega
    rw [ht, List.append_assoc]
  have hkey2 : response.length + (castSignature agent_name).length ≤ 320 →
      format_response response agent_name = response ++ castSignature agent_name := by
    intro hle
    unfold format_response
    dsimp only
    rw [if_neg (show ¬ ((response.length : Int) >
          320 - ((castSignature agent_name).length : Int)) by omega)]
  have hlen : 320 < response.length + (castSignature agent_name).length →
      (format_response response agent_name).length = 320 := by
    intro hc
    rw [hkey hc]
    have h3 : (['.', '.', '.'] : List Char).length = 3 := rfl
    simp only [List.length_append, List.length_take, h3]
    omega
  refine ⟨hkey2, fun hc => ⟨hkey hc, hlen hc⟩, ?_⟩
  by_cases hc : 320 < response.length + (castSignature agent_name).length
  · exact (hlen hc).le
  · rw [hkey2 (by omega)]
    simp only [List.length_append]
    omega

/-- Witness for C5 at 400 `'a'`s with agent name `terroir` (suffix length
13): the hypothesis holds and the 320-character truncation applies. -/
theorem format_response_spec_witness :
    ((List.replicate 400 'a').length + (castSignature ['t', 'e', 'r', 'r', 'o', 'i', 'r']).length ≤ 320 →
       format_response (List.replicate 400 'a') ['t', 'e', 'r', 'r', 'o', 'i', 'r']
         = List.replicate 400 'a' ++ castSignature ['t', 'e', 'r', 'r', 'o', 'i', 'r'])
    ∧ (320 < (List.replicate 400 'a').length
          + (castSignature ['t', 'e', 'r', 'r', 'o', 'i', 'r']).length →
       format_response (List.replicate 400 'a') ['t', 'e', 'r', 'r', 'o', 'i', 'r']
         = (List.replicate 400 'a').take
               (320 - (castSignature ['t', 'e', 'r', 'r', 'o', 'i', 'r']).length - 3)
             ++ ['.', '.', '.'] ++ castSignature ['t', 'e', 'r', 'r', 'o', 'i', 'r']
       ∧ (format_response (List.replicate 400 'a') ['t', 'e', 'r', 'r', 'o', 'i', 'r']).length
           = 320)
    ∧ (format_response (List.replicate 400 'a') ['t', 'e', 'r', 'r', 'o', 'i', 'r']).length
        ≤ 320 :=
  format_response_spec (List.replicate 400 'a') ['t', 'e', 'r', 'r', 'o', 'i', 'r'] (by decide)

/-! ## ThreadContextStore lemmas -/

/-- The last `k` elements of a list. -/
def lastK {α : Type} (k : Nat) (xs : List α) : List α := xs.drop (xs.length - k)

theorem trackStep_eq_lastK {α : Type} (k : Nat) (l : List α) (m : α) :
    trackStep k l m = lastK k (l ++ [m]) := by
  unfold trackStep lastK
  dsimp only
  split
  · rfl
  · rename_i hle
    rw [Nat.sub_eq_zero_of_le (by omega), List.drop_zero]

theorem trackStep_length_le {α : Type} (k : Nat) (l : List α) (m : α) :
    (trackStep k l m).length ≤ k := by
  rw [trackStep_eq_lastK]
  unfold lastK
  rw [List.length_drop]
  omega

theorem lastK_append_left {α : Type} (k : Nat) (front ys : List α) (h : k ≤ ys.length) :
    lastK k (front ++ ys) = lastK k ys := by
  unfold lastK
  rw [List.length_append,
    show front.length + ys.length - k = front.length + (ys.length - k) by omega,
    List.drop_append]

theorem lastK_lastK_append {α : Type} (k : Nat) (xs ms : List α) :
    lastK k (lastK k xs ++ ms) = lastK k (xs ++ ms) := by
  by_cases h : xs.length ≤ k
  · rw [show lastK k xs = xs by unfold lastK; rw [Nat.sub_eq_zero_of_le h, List.drop_zero]]
  · have hx : xs.take (xs.length - k) ++ lastK k xs = xs := List.take_append_drop _ _
    have h' : k ≤ (lastK k xs ++ ms).length := by
      unfold lastK
      rw [List.length_append, List.length_drop]
      omega
    calc lastK k (lastK k xs ++ ms)
        = lastK k (xs.take (xs.length - k) ++ (lastK k xs ++ ms)) :=
          (lastK_append_left k (xs.take (xs.length - k)) (lastK k xs ++ ms) h').symm
      _ = lastK k (xs ++ ms) := by rw [← List.append_assoc, hx]

theorem foldl_trackStep_eq_lastK {α : Type} (k : Nat) (ms l : List α) (h : l.length ≤ k) :
    ms.foldl (trackStep k) l = lastK k (l ++ ms) := by
  induction ms generalizing l with
  | nil =>
    simp only [List.foldl_nil, List.append_nil]
    unfold lastK
    rw [Nat.sub_eq_zero_of_le h, List.drop_zero]
  | cons m rest ih =>
    rw [List.foldl_cons, ih _ (trackStep_length_le k l m), trackStep_eq_lastK,
      lastK_lastK_append, List.append_assoc]
    rfl

theorem convStep_eq_trackStep {α : Type} (k : Nat) (l : List α) (m : α) (h : l.length ≤ k) :
    convStep k l m = trackStep k l m := by
  unfold convStep trackStep
  dsimp only
  split
  · rename_i hgt
    simp only [List.length_append, List.length_cons, List.length_nil] at hgt
    rw [show (l ++ [m]).length - k = 1 by simp; omega, ← List.drop_one]
  · rfl

theorem foldl_convStep_eq_lastK {α : Type} (k : Nat) (ms l : List α) (h : l.length ≤ k) :
    ms.foldl (convStep k) l = lastK k (l ++ ms) := by
  induction ms generalizing l with
  | nil =>
    simp only [List.foldl_nil, List.append_nil]
    unfold lastK
    rw [Nat.sub_eq_zero_of_le h, List.drop_zero]
  | cons m rest ih =>
    rw [List.foldl_cons, convStep_eq_trackStep k l m h,
      ih _ (trackStep_length_le k l m), trackStep_eq_lastK,
      lastK_lastK_append, List.append_assoc]
    rfl

theorem getA_foldl_track {α : Type} (k : Nat) (root : String) (ms : List α)
    (tc : List (String × List α)) :
    getA (ms.foldl (fun t m => track_thread_context t k root m) tc) root
      = ms.foldl (trackStep k) (getA tc root) := by
  induction ms generalizing tc with
  | nil => rfl
  | cons m rest ih =>
    rw [List.foldl_cons, List.foldl_cons, ih]
    unfold track_thread_context
    rw [getA_setA_same]

theorem getA_foldl_conv {α : Type} (k : Nat) (root : String) (ms : List α)
    (tc : List (String × List α)) :
    getA (ms.foldl (fun t m => update_conversation_history t k root m) tc) root
      = ms.foldl (convStep k) (getA tc root) := by
  induction ms generalizing tc with
  | nil => rfl
  | cons m rest ih =>
    rw [List.foldl_cons, List.foldl_cons, ih]
    unfold update_conversation_history
    rw [getA_setA_same]

/-- C8: both per-thread context stores (`track_thread_context` with
`max_context_size` and `update_conversation_history` with
`max_history_size`, both 5 by default) have fixed capacity `k`: append adds
at the end and evicts from the front once the size would exceed `k`, so
appending `k + 3` messages to a fresh thread leaves exactly the last `k`
messages, in chronological order (oldest first); and the size bound `≤ k`
is preserved by every append. -/
theorem thread_context_bounded (α : Type) (k : Nat) (root : String)
    (ms : List α) (tc : List (String × List α))
    (hroot : getA tc root = []) (hlen : ms.length = k + 3) :
    getA (ms.foldl (fun t m => track_thread_context t k root m) tc) root = ms.drop 3
    ∧ getA (ms.foldl (fun t m => update_conversation_history t k root m) tc) root = ms.drop 3
    ∧ (ms.drop 3).length = k
    ∧ (∀ (tc₂ : List (String × List α)) (m : α), (getA tc₂ root).length ≤ k →
        (getA (track_thread_context tc₂ k root m) root).length ≤ k
        ∧ (getA (update_conversation_history tc₂ k root m) root).length ≤ k) := by
  have h0 : ([] : List α).length ≤ k := by simp
  have hdrop : lastK k ([] ++ ms) = ms.drop 3 := by
    rw [List.nil_append]
    unfold lastK
    rw [hlen]
    congr 1
    omega
  refine ⟨?_, ?_, ?_, ?_⟩
  · rw [getA_foldl_track, hroot, foldl_trackStep_eq_lastK k ms [] h0, hdrop]
  · rw [getA_foldl_conv, hroot, foldl_convStep_eq_lastK k ms [] h0, hdrop]
  · rw [List.length_drop]
    omega
  · intro tc₂ m hle
    constructor
    · unfold track_thread_context
      rw [getA_setA_same]
      exact trackStep_length_le k _ m
    · unfold update_conversation_history
      rw [getA_setA_same, convStep_eq_trackStep k _ m hle]
      exact trackStep_length_le k _ m

/-- Witness for C8: eight messages appended to the empty store for thread
`r` with the default capacity 5 leave exactly the last five. -/
theorem thread_context_bounded_witness :
    getA (([0, 1, 2, 3, 4, 5, 6, 7] : List Nat).foldl
        (fun t m => track_thread_context t 5 "r" m) []) "r"
      = ([0, 1, 2, 3, 4, 5, 6, 7] : List Nat).drop 3
    ∧ getA (([0, 1, 2, 3, 4, 5, 6, 7] : List Nat).foldl
        (fun t m => update_conversation_history t 5 "r" m) []) "r"
      = ([0, 1, 2, 3, 4, 5, 6, 7] : List Nat).drop 3
    ∧ (([0, 1, 2, 3, 4, 5, 6, 7] : List Nat).drop 3).length = 5
    ∧ (∀ (tc₂ : List (String × List Nat)) (m : Nat), (getA tc₂ "r").length ≤ 5 →
        (getA (track_thread_context tc₂ 5 "r" m) "r").length ≤ 5
        ∧ (getA (update_conversation_history tc₂ 5 "r" m) "r").length ≤ 5) :=
  thread_context_bounded Nat 5 "r" [0, 1, 2, 3, 4, 5, 6, 7] [] rfl rfl

/-- Five admitted-and-recorded requests from sender `f` at increasing times
`t1 < ... < t5`, starting from an empty request history. -/
def recordFive (f : String) (t1 t2 t3 t4 t5 : Nat) : List (String × List Nat) :=
  record (record (record (record (record [] t1 (some f)) t2 (some f)) t3 (some f))
    t4 (some f)) t5 (some f)

/-- C3: with the default per-sender cap `M = 5` per 300 s, after five
admitted-and-recorded requests from a sender at times `t1 < ... < t5`, a
sixth request at any `now` within 300 s of the first is denied by
`check_rate_limit`; and once 300 s elapse from the oldest recorded request,
exactly one unit of capacity is replenished: the purge drops `t1` alone,
leaving `[t2, t3, t4, t5]`, and the admission check passes again.  The
conjuncts also record that each of the five set-up requests was itself
admitted by `check_rate_limit` before being recorded. -/
theorem rate_limit_window_spec (f : String) (t1 t2 t3 t4 t5 now : Nat)
    (hf : f ≠ "global")
    (h12 : t1 < t2) (h23 : t2 < t3) (h34 : t3 < t4) (h45 : t4 < t5)
    (h5n : t5 ≤ now) (hwin : now < t1 + 300) :
    (check_rate_limit defaultRateLimits [] t1 (some f)).2 = true
    ∧ (check_rate_limit defaultRateLimits (record [] t1 (some f)) t2 (some f)).2 = true
    ∧ (check_rate_limit defaultRateLimits
        (record (record [] t1 (some f)) t2 (some f)) t3 (some f)).2 = true
    ∧ (check_rate_limit defaultRateLimits
        (record (record (record [] t1 (some f)) t2 (some f)) t3 (some f))
        t4 (some f)).2 = true
    ∧ (check_rate_limit defaultRateLimits
        (record (record (record (record [] t1 (some f)) t2 (some f)) t3 (some f))
          t4 (some f)) t5 (some f)).2 = true
    ∧ (check_rate_limit defaultRateLimits (recordFive f t1 t2 t3 t4 t5)
        now (some f)).2 = false
    ∧ getA (clean_old_requests defaultRateLimits (recordFive f t1 t2 t3 t4 t5)
        (t1 + 300)) f = [t2, t3, t4, t5]
    ∧ (check_rate_limit defaultRateLimits (recordFive f t1 t2 t3 t4 t5)
        (t1 + 300) (some f)).2 = true := by
  have hgf : ¬ ("global" = f) := fun e => hf e.symm
  have hwf : windowFor defaultRateLimits f = 300 := by
    simp [windowFor, defaultRateLimits, hf]
  have hwg : windowFor defaultRateLimits "global" = 3600 := by
    simp [windowFor, defaultRateLimits]
  have hH1 : record [] t1 (some f) = [("global", [t1]), (f, [t1])] := by
    simp [record, appendA, hgf]
  have hH2 : record [("global", [t1]), (f, [t1])] t2 (some f)
      = [("global", [t1, t2]), (f, [t1, t2])] := by
    simp [record, appendA, hgf]
  have hH3 : record [("global", [t1, t2]), (f, [t1, t2])] t3 (some f)
      = [("global", [t1, t2, t3]), (f, [t1, t2, t3])] := by
    simp [record, appendA, hgf]
  have hH4 : record [("global", [t1, t2, t3]), (f, [t1, t2, t3])] t4 (some f)
      = [("global", [t1, t2, t3, t4]), (f, [t1, t2, t3, t4])] := by
    simp [record, appendA, hgf]
  have hH5 : recordFive f t1 t2 t3 t4 t5
      = [("global", [t1, t2, t3, t4, t5]), (f, [t1, t2, t3, t4, t5])] := by
    unfold recordFive
    rw [hH1, hH2, hH3, hH4]
    simp [record, appendA, hgf]
  have hgetg : ∀ gl ul : List Nat, getA [("global", gl), (f, ul)] "global" = gl := by
    intro gl ul
    simp [getA]
  have hgetf : ∀ gl ul : List Nat, getA [("global", gl), (f, ul)] f = ul := by
    intro gl ul
    simp [getA, hgf]
  have hadm : ∀ (gl ul : List Nat) (t : Nat), gl.length ≤ 4 → ul.length ≤ 4 →
      (check_rate_limit defaultRateLimits [("global", gl), (f, ul)] t (some f)).2 = true := by
    intro gl ul t hg hu
    rw [check_rate_limit_true_iff]
    constructor
    · rw [getA_clean, hgetg, show defaultRateLimits.global_max = 50 from rfl]
      have hle := List.length_filter_le
        (fun t' => decide (t < t' + windowFor defaultRateLimits "global")) gl
      omega
    · intro fid hfid
      cases hfid
      rw [getA_clean, hgetf, show defaultRateLimits.per_user_max = 5 from rfl]
      have hle := List.length_filter_le
        (fun t' => decide (t < t' + windowFor defaultRateLimits f)) ul
      omega
  have hadm0 : (check_rate_limit defaultRateLimits [] t1 (some f)).2 = true := by
    rw [check_rate_limit_true_iff]
    refine ⟨?_, fun fid hfid => ?_⟩
    · simp [clean_old_requests, getA, defaultRateLimits]
    · cases hfid
      simp [clean_old_requests, getA, defaultRateLimits]
  have hfull : getA (clean_old_requests defaultRateLimits
      (recordFive f t1 t2 t3 t4 t5) now) f = [t1, t2, t3, t4, t5] := by
    rw [hH5, getA_clean, hgetf, hwf]
    have c1 : now < t1 + 300 := by omega
    have c2 : now < t2 + 300 := by omega
    have c3 : now < t3 + 300 := by omega
    have c4 : now < t4 + 300 := by omega
    have c5 : now < t5 + 300 := by omega
    simp [List.filter_cons, c1, c2, c3, c4, c5]
  have hpurged : getA (clean_old_requests defaultRateLimits
      (recordFive f t1 t2 t3 t4 t5) (t1 + 300)) f = [t2, t3, t4, t5] := by
    rw [hH5, getA_clean, hgetf, hwf]
    have d3 : t1 < t3 := by omega
    have d4 : t1 < t4 := by omega
    have d5 : t1 < t5 := by omega
    simp [List.filter_cons, h12, d3, d4, d5]
  refine ⟨hadm0, ?_, ?_, ?_, ?_, ?_, hpurged, ?_⟩
  · rw [hH1]
    exact hadm _ _ t2 (by simp) (by simp)
  · rw [hH1, hH2]
    exact hadm _ _ t3 (by simp) (by simp)
  · rw [hH1, hH2, hH3]
    exact hadm _ _ t4 (by simp) (by simp)
  · rw [hH1, hH2, hH3, hH4]
    exact hadm _ _ t5 (by simp) (by simp)
  · apply Bool.eq_false_iff.mpr
    intro htrue
    rw [check_rate_limit_true_iff] at htrue
    obtain ⟨-, hu⟩ := htrue
    have h5 := hu f rfl
    rw [hfull] at h5
    simp [defaultRateLimits] at h5
  · rw [check_rate_limit_true_iff]
    refine ⟨?_, fun fid hfid => ?_⟩
    · have hglob : getA (clean_old_requests defaultRateLimits
          (recordFive f t1 t2 t3 t4 t5) (t1 + 300)) "global" = [t1, t2, t3, t4, t5] := by
        rw [hH5, getA_clean, hgetg, hwg]
        have g2 : t1 < t2 + 3300 := by omega
        have g3 : t1 < t3 + 3300 := by omega
        have g4 : t1 < t4 + 3300 := by omega
        have g5 : t1 < t5 + 3300 := by omega
        simp [List.filter_cons, g2, g3, g4, g5]
      rw [hglob, show defaultRateLimits.global_max = 50 from rfl]
      simp
    · cases hfid
      rw [hpurged, show defaultRateLimits.per_user_max = 5 from rfl]
      simp

/-- Witness for C3 with sender `alice`, request times 0..4 and a sixth
request at time 4. -/
theorem rate_limit_window_spec_witness :
    (check_rate_limit defaultRateLimits [] 0 (some "alice")).2 = true
    ∧ (check_rate_limit defaultRateLimits (record [] 0 (some "alice")) 1
        (some "alice")).2 = true
    ∧ (check_rate_limit defaultRateLimits
        (record (record [] 0 (some "alice")) 1 (some "alice")) 2 (some "alice")).2 = true
    ∧ (check_rate_limit defaultRateLimits
        (record (record (record [] 0 (some "alice")) 1 (some "alice")) 2 (some "alice"))
        3 (some "alice")).2 = true
    ∧ (check_rate_limit defaultRateLimits
        (record (record (record (record [] 0 (some "alice")) 1 (some "alice")) 2
          (some "alice")) 3 (some "alice")) 4 (some "alice")).2 = true
    ∧ (check_rate_limit defaultRateLimits (recordFive "alice" 0 1 2 3 4)
        4 (some "alice")).2 = false
    ∧ getA (clean_old_requests defaultRateLimits (recordFive "alice" 0 1 2 3 4)
        (0 + 300)) "alice" = [1, 2, 3, 4]
    ∧ (check_rate_limit defaultRateLimits (recordFive "alice" 0 1 2 3 4)
        (0 + 300) (some "alice")).2 = true :=
  rate_limit_window_spec "alice" 0 1 2 3 4 4 (by decide) (by decide) (by decide)
    (by decide) (by decide) (by decide) (by decide)

theorem splitOnceColon_append (a b : List Char) (ha : ':' ∉ a) :
    splitOnceColon (a ++ ':' :: b) = some (a, b) := by
  induction a with
  | nil => simp [splitOnceColon]
  | cons c rest ih =>
    have hc : ¬ (c = ':') := fun e => ha (e ▸ List.mem_cons_self c rest)
    simp [splitOnceColon, hc, ih (fun hm => ha (List.mem_cons_of_mem c hm))]

/-- C4 counterexample: on `cast+abc: hello` the router does not fall through
to an ordinary query (the `None` return); it returns the error string
`Error parsing scheduled cast: ...` from the `except` branch. -/
theorem process_cast_command_nonnumeric_counterexample :
    process_cast_command
        ['c', 'a', 's', 't', '+', 'a', 'b', 'c', ':', ' ', 'h', 'e', 'l', 'l', 'o']
      = CastCommandResult.errorParsing
    ∧ CastCommandResult.errorParsing ≠ CastCommandResult.noCommand := by
  constructor
  · decide
  · intro h
    cases h

/-- C4 amended: for input of the form `cast+<N>: <message>` where `<N>` does
not parse as an integer (and no `cast+raw:`/`cast:` marker occurs
case-insensitively in the text), `process_cast_command` does not raise — the
`ValueError` from `int()` is caught — but it does not fall through to an
ordinary query either: it returns the error-string result
`Error parsing scheduled cast: ...`, producing neither a cast nor a
scheduled cast. -/
theorem process_cast_command_nonnumeric (ns msg : List Char)
    (hraw : isSub ['c', 'a', 's', 't', '+', 'r', 'a', 'w', ':']
        (pyLower (['c', 'a', 's', 't', '+'] ++ ns ++ ':' :: msg)) = false)
    (hcast : isSub ['c', 'a', 's', 't', ':']
        (pyLower (['c', 'a', 's', 't', '+'] ++ ns ++ ':' :: msg)) = false)
    (hns : ':' ∉ ns)
    (hint : pyInt? (pyStrip (removeCastPlus (['c', 'a', 's', 't', '+'] ++ ns))) = none) :
    process_cast_command (['c', 'a', 's', 't', '+'] ++ ns ++ ':' :: msg)
      = CastCommandResult.errorParsing := by
  have hlq : pyLower (['c', 'a', 's', 't', '+'] ++ ns ++ ':' :: msg)
      = ['c', 'a', 's', 't', '+'] ++ pyLower ns ++ ':' :: pyLower msg := by
    unfold pyLower
    simp only [List.map_append, List.map_cons, List.map_nil]
    rw [show 'c'.toLower = 'c' from by decide, show 'a'.toLower = 'a' from by decide,
      show 's'.toLower = 's' from by decide, show 't'.toLower = 't' from by decide,
      show '+'.toLower = '+' from by decide, show ':'.toLower = ':' from by decide]
  have hsub1 : isSub ['c', 'a', 's', 't', '+']
      (pyLower (['c', 'a', 's', 't', '+'] ++ ns ++ ':' :: msg)) = true := by
    unfold isSub
    apply decide_eq_true
    rw [hlq]
    exact ⟨[], pyLower ns ++ ':' :: pyLower msg, by simp⟩
  have hsub2 : isSub [':']
      (pyLower (['c', 'a', 's', 't', '+'] ++ ns ++ ':' :: msg)) = true := by
    unfold isSub
    apply decide_eq_true
    rw [hlq]
    exact ⟨['c', 'a', 's', 't', '+'] ++ pyLower ns, pyLower msg, by simp⟩
  have hsplit : splitOnceColon (['c', 'a', 's', 't', '+'] ++ ns ++ ':' :: msg)
      = some (['c', 'a', 's', 't', '+'] ++ ns, msg) := by
    rw [show ['c', 'a', 's', 't', '+'] ++ ns ++ ':' :: msg
        = (['c', 'a', 's', 't', '+'] ++ ns) ++ ':' :: msg from by simp]
    refine splitOnceColon_append _ _ ?_
    intro hm
    rcases List.mem_append.mp hm with hmm | hmm
    · simp at hmm
    · exact hns hmm
  simp only [process_cast_command, hraw, hcast, hsub1, hsub2, Bool.and_self,
    Bool.false_eq_true, if_false, if_true, hsplit, hint]

/-- Witness for the amended C4 at the concrete input `cast+abc: hello`. -/
theorem process_cast_command_nonnumeric_witness :
    isSub ['c', 'a', 's', 't', '+', 'r', 'a', 'w', ':']
        (pyLower (['c', 'a', 's', 't', '+'] ++ ['a', 'b', 'c']
          ++ ':' :: [' ', 'h', 'e', 'l', 'l', 'o'])) = false
    ∧ isSub ['c', 'a', 's', 't', ':']
        (pyLower (['c', 'a', 's', 't', '+'] ++ ['a', 'b', 'c']
          ++ ':' :: [' ', 'h', 'e', 'l', 'l', 'o'])) = false
    ∧ ':' ∉ (['a', 'b', 'c'] : List Char)
    ∧ pyInt? (pyStrip (removeCastPlus (['c', 'a', 's', 't', '+'] ++ ['a', 'b', 'c']))) = none
    ∧ process_cast_command (['c', 'a', 's', 't', '+'] ++ ['a', 'b', 'c']
        ++ ':' :: [' ', 'h', 'e', 'l', 'l', 'o'])
      = CastCommandResult.errorParsing :=
  ⟨by decide, by decide, by decide, by decide,
    process_cast_command_nonnumeric ['a', 'b', 'c'] [' ', 'h', 'e', 'l', 'l', 'o']
      (by decide) (by decide) (by decide) (by decide)⟩

/-- C1 (code bug): the handler's `process_webhook` does halt with the error
response on any failed signature, with no classification and no dispatch
(second and fourth conjuncts); but the live endpoint `farcaster_webhook`
calls `verify_signature` and discards the result: its outcome does not
depend on the signature, the body or the secret at all (fifth conjunct),
and on a concrete mention payload with a missing signature header it still
dispatches a reply and returns the success response (third conjunct). -/
theorem webhook_bad_signature_bug :
    verify_webhook_signature (fun _ _ => "d") [] none (some "secret") = false
    ∧ process_webhook (fun _ _ => "d") [] none (some "secret") 885400
        ⟨some "cast.created",
          some ⟨some 42, [⟨some 885400⟩], ParentAuthorField.missing, some "0x1",
            some "what is basin?"⟩⟩
      = ProcessWebhookResult.invalidSignature
    ∧ farcaster_webhook (fun _ _ => "d") [] none (some "secret")
        ⟨some "cast.created",
          some ⟨some 42, [⟨some 885400⟩], ParentAuthorField.missing, some "0x1",
            some "what is basin?"⟩⟩
      = WebhookOutcome.success (some (some "what is basin?", some "0x1"))
    ∧ (∀ (hmacHex : String → List Nat → String) (body : List Nat)
        (signature secret : Option String) (selfFid : Int) (p : WebhookPayload),
        verify_webhook_signature hmacHex body signature secret = false →
          process_webhook hmacHex body signature secret selfFid p
            = ProcessWebhookResult.invalidSignature)
    ∧ (∀ (hmacHex hmacHex₂ : String → List Nat → String) (body body₂ : List Nat)
        (signature signature₂ secret secret₂ : Option String) (p : WebhookPayload),
        farcaster_webhook hmacHex body signature secret p
          = farcaster_webhook hmacHex₂ body₂ signature₂ secret₂ p) := by
  refine ⟨rfl, rfl, rfl, ?_, ?_⟩
  · intro hmacHex body signature secret selfFid p hv
    unfold process_webhook
    rw [hv]
    rfl
  · intro hmacHex hmacHex₂ body body₂ signature signature₂ secret secret₂ p
    rfl

/-- C2 (code bug): `handle_webhook_event` — the event classifier — never
responds to a self-authored cast, whatever its mentions or parent fields
(first conjunct); but the live endpoint `farcaster_webhook` reimplements
classification inline without the self-author check, and on a concrete
self-authored cast that mentions the agent it dispatches a reply and
returns success (third conjunct), where the classifier returns `None`
(second conjunct). -/
theorem self_cast_dispatch_bug :
    (∀ (selfFid : Int) (p : WebhookPayload),
      (castDataOf p).author_fid = some selfFid → handle_webhook_event selfFid p = none)
    ∧ handle_webhook_event 885400
        ⟨some "cast.created",
          some ⟨some 885400, [⟨some 885400⟩], ParentAuthorField.missing, some "0xabc",
            some "gm"⟩⟩ = none
    ∧ farcaster_webhook (fun _ _ => "d") [] (some "sig") (some "secret")
        ⟨some "cast.created",
          some ⟨some 885400, [⟨some 885400⟩], ParentAuthorField.missing, some "0xabc",
            some "gm"⟩⟩
      = WebhookOutcome.success (some (some "gm", some "0xabc")) := by
  refine ⟨?_, rfl, rfl⟩
  intro selfFid p hauthor
  unfold handle_webhook_event
  by_cases htype : p.type_field = some "cast.created"
  · rw [if_pos htype, if_pos hauthor]
  · rw [if_neg htype]

end Terroir
